import Mathlib

/-!
Verification of the yewdux shared-state container core.

The repository source under version control here contains the crate root
(`src/lib.rs`, which holds the documented usage example and the module
and re-export declarations) and the `multi_component` example.  The
bodies of the core modules (`dispatch`, `service`, `store`) are not
present, so the registry/dispatch core below is modelled from the
specification, while the component-level behaviour (C9, C10) follows the
example code in `src/lib.rs` and `examples/multi_component/src/main.rs`.
-/

namespace Yewdux

/-- A shared snapshot of the state (models `Rc<S>`).  `ref` is the
reference identity of the allocation: two snapshots are the same
allocation exactly when their `ref`s agree; copy-on-write mutation
always allocates a fresh `ref`. -/
structure Snapshot (α : Type) where
  ref : Nat
  val : α
deriving DecidableEq, Repr

/-- Modelled from the spec: the `Store` trait contract of the missing
`store` module — a construction rule producing an initial value, an
optional change-detection predicate comparing previous and next value,
and an optional post-mutation hook (modelled by whether the store has
one; its run is recorded as an event). -/
structure StoreDef (α : Type) where
  init : α
  changed : Option (α → α → Bool)
  hasHook : Bool

/-- Observable events emitted by the registry: a notification of
subscriber `id` with a new value, or a run of the post-mutation hook. -/
inductive Event (α : Type) where
  | notify (id : Nat) (v : α)
  | hook (v : α)
deriving DecidableEq, Repr

/-- Modelled from the spec: one registry entry of the missing `service`
module (the process-wide Context registry) for a single store type —
the current shared value, the set of subscriber entries (handler
identities), the internal version counter, and a counter of how many
times the store was constructed (to state construction idempotence). -/
structure Context (α : Type) where
  value : Option (Snapshot α)
  subscribers : List Nat
  version : Nat
  constructions : Nat
deriving Repr

/-- The empty registry entry, before first access. -/
def Context.empty (α : Type) : Context α :=
  { value := none, subscribers := [], version := 0, constructions := 0 }

/-- Modelled from the spec: `get_or_init::<S>()` of the missing
`service` module — returns the existing value or constructs, stores and
returns a new one; construction happens at most once. -/
def getOrInit {α : Type} (S : StoreDef α) (ctx : Context α) :
    Snapshot α × Context α :=
  match ctx.value with
  | some s => (s, ctx)
  | none =>
      let s : Snapshot α := ⟨ctx.version, S.init⟩
      (s, { ctx with value := some s, constructions := ctx.constructions + 1 })

/-- Modelled from the spec: `get()` of the missing `dispatch` module —
returns the current snapshot without registering a listener. -/
def get {α : Type} (S : StoreDef α) (ctx : Context α) : α :=
  (getOrInit S ctx).1.val

/-- The current snapshot itself (the shared `Rc`), with its reference
identity — what a reader actually receives. -/
def getSnap {α : Type} (S : StoreDef α) (ctx : Context α) : Snapshot α :=
  (getOrInit S ctx).1

/-- Modelled from the spec: `subscribe::<S>(handler_id, callback)` of
the missing `service` module — registers the callback (one entry per
handler identity) and immediately invokes it once with the current
value. -/
def subscribe {α : Type} (S : StoreDef α) (id : Nat) (ctx : Context α) :
    Context α × List (Event α) :=
  let p := getOrInit S ctx
  let ctx1 := p.2
  let subs := if id ∈ ctx1.subscribers then ctx1.subscribers
              else ctx1.subscribers ++ [id]
  ({ ctx1 with subscribers := subs }, [Event.notify id p.1.val])

/-- Modelled from the spec: `unsubscribe::<S>(handler_id)` of the
missing `service` module — removes the entry; no-op if absent. -/
def unsubscribe {α : Type} (id : Nat) (ctx : Context α) : Context α :=
  { ctx with subscribers := ctx.subscribers.filter (fun j => j ≠ id) }

/-- Whether a mutation from `old` to `new` notifies: the optional
change-detection predicate, or unconditionally `true` when absent
(the `Basic` variant). -/
def shouldNotify {α : Type} (S : StoreDef α) (old new : α) : Bool :=
  match S.changed with
  | none => true
  | some p => p old new

/-- Modelled from the spec: `mutate::<S>(f)` of the missing `service`
module — computes the next value, applies the optional change-detection
predicate; if changed (or no predicate), replaces the current value
with a freshly allocated snapshot, increments the internal version,
runs the optional post-mutation hook, then notifies every subscriber
registered at the start of the notify step with the new value.  If
unchanged, no notification and no hook run. -/
def mutate {α : Type} (S : StoreDef α) (f : α → α) (ctx : Context α) :
    Context α × List (Event α) :=
  let p := getOrInit S ctx
  let s := p.1
  let ctx1 := p.2
  let v := f s.val
  if shouldNotify S s.val v then
    let ver := ctx1.version + 1
    let ctx2 := { ctx1 with value := some ⟨ver, v⟩, version := ver }
    let evs := (if S.hasHook then [Event.hook v] else []) ++
               ctx1.subscribers.map (fun id => Event.notify id v)
    (ctx2, evs)
  else
    (ctx1, [])

/-- Decidable test: is this event a notification addressed to `id`? -/
def isNotifyTo {α : Type} (id : Nat) : Event α → Bool
  | Event.notify j _ => j = id
  | Event.hook _ => false

/-- Decidable test: is this event a hook run? -/
def isHook {α : Type} : Event α → Bool
  | Event.notify _ _ => false
  | Event.hook _ => true

/-- Modelled from the spec: the notify step of the missing `service`
module when callbacks may drop their own `Dispatch` mid-notification —
iteration runs over the stable snapshot taken at the start of the step,
while each callback with `selfUnsub id = true` removes its own entry
from the live subscriber set.  Returns the notification events and the
updated subscriber set. -/
def notifyLoop {α : Type} (v : α) (selfUnsub : Nat → Bool) :
    List Nat → List Nat → List (Event α) × List Nat
  | [], subs => ([], subs)
  | id :: rest, subs =>
      let subs1 := if selfUnsub id then subs.filter (fun j => j ≠ id) else subs
      let p := notifyLoop v selfUnsub rest subs1
      (Event.notify id v :: p.1, p.2)

/-- Modelled from the spec: `mutate` where notification callbacks may
unsubscribe themselves (drop their own `Dispatch`) during delivery. -/
def mutateU {α : Type} (S : StoreDef α) (f : α → α) (selfUnsub : Nat → Bool)
    (ctx : Context α) : Context α × List (Event α) :=
  let p := getOrInit S ctx
  let s := p.1
  let ctx1 := p.2
  let v := f s.val
  if shouldNotify S s.val v then
    let ver := ctx1.version + 1
    let q := notifyLoop v selfUnsub ctx1.subscribers ctx1.subscribers
    let s' : Snapshot α := ⟨ver, v⟩
    let ctx2 := { ctx1 with value := some s', version := ver, subscribers := q.2 }
    (ctx2, (if S.hasHook then [Event.hook v] else []) ++ q.1)
  else
    (ctx1, [])

/-- A registry operation, for stating properties of call sequences. -/
inductive Op (α : Type) where
  | subscribe (id : Nat)
  | unsubscribe (id : Nat)
  | mutate (f : α → α)

/-- One operation against the registry entry. -/
def step {α : Type} (S : StoreDef α) (ctx : Context α) :
    Op α → Context α × List (Event α)
  | Op.subscribe id => subscribe S id ctx
  | Op.unsubscribe id => (unsubscribe id ctx, [])
  | Op.mutate f => mutate S f ctx

/-- Run a sequence of operations, concatenating the event logs in call
order. -/
def run {α : Type} (S : StoreDef α) : List (Op α) → Context α →
    Context α × List (Event α)
  | [], ctx => (ctx, [])
  | op :: ops, ctx =>
      let p := step S ctx op
      let q := run S ops p.1
      (q.1, p.2 ++ q.2)

/-- Modelled from the spec: the reentrancy rule of the missing
`service` module.  `re id v` gives the reducers a subscriber's callback
enqueues when notified with `v`.  Mutations are processed from a queue:
the front mutation's fan-out completes over every subscriber before any
mutation it triggered is processed — breadth-first, never interleaved.
`fuel` bounds the number of processed mutations. -/
def runQueue {α : Type} (S : StoreDef α) (re : Nat → α → List (α → α)) :
    Nat → List (α → α) → Context α → Context α × List (Event α)
  | 0, _, ctx => (ctx, [])
  | _ + 1, [], ctx => (ctx, [])
  | fuel + 1, f :: rest, ctx =>
      let p := mutate S f ctx
      let nested := p.2.flatMap (fun e =>
        match e with
        | Event.notify id v => re id v
        | Event.hook _ => [])
      let q := runQueue S re fuel (rest ++ nested) p.1
      (q.1, p.2 ++ q.2)

/-- Modelled from the spec: a serialization codec for the `Persistent`
store variant of the missing `store::persistent` module (structured
text encoding, modelled as bytes). -/
structure Codec (α : Type) where
  ser : α → List Nat
  de : List Nat → Option α

/-- Modelled from the spec: a persistence backend — a key/bytes store
supporting `load` and `store`. -/
structure Backend where
  table : List (String × List Nat)

/-- `load(key) -> Option<bytes>` of the backend. -/
def Backend.load (b : Backend) (k : String) : Option (List Nat) :=
  (b.table.find? (fun p => p.1 = k)).map (fun p => p.2)

/-- `store(key, bytes)` of the backend. -/
def Backend.put (b : Backend) (k : String) (bytes : List Nat) : Backend :=
  ⟨(k, bytes) :: b.table⟩

/-- Modelled from the spec: construction of a `Persistent` store —
attempt to load a prior snapshot from the backend under the store's
key; a missing or corrupt key falls back to the default value, never
failing. -/
def persistentConstruct {α : Type} (c : Codec α) (dflt : α) (k : String)
    (b : Backend) : α :=
  match b.load k with
  | some bytes => (c.de bytes).getD dflt
  | none => dflt

/-- Modelled from the spec: the post-mutation hook of a `Persistent`
store — serialize the new value and write it back under the key. -/
def persistentSave {α : Type} (c : Codec α) (k : String) (b : Backend)
    (v : α) : Backend :=
  b.put k (c.ser v)

end Yewdux

namespace MultiComponent

/-- The shared `State` of the example (`struct State { count: u32 }`,
deriving `Default` and `Clone`).  `count` is a `u32`, kept as a `Nat`
reduced modulo `2^32` where arithmetic occurs. -/
structure State where
  count : Nat
deriving DecidableEq, Repr

/-- `Default` for `State`: `count = 0`. -/
def State.default : State := ⟨0⟩

/-- The reducer of the example: `|s| s.count += 1` (u32 wrapping on the
release profile). -/
def incr (s : State) : State := ⟨(s.count + 1) % 2 ^ 32⟩

/-- The `BasicStore<State>` of the example: default construction, no
change-detection predicate, no post-mutation hook. -/
def basicStore : Yewdux.StoreDef State :=
  { init := State.default, changed := none, hasHook := false }

/-- The messages of the example `App` component: `Msg::State(Rc<State>)`
and `Msg::Increment`. -/
inductive Msg where
  | state (s : Yewdux.Snapshot State)
  | increment
deriving DecidableEq, Repr

/-- The `App` component's own fields: its local copy of state
(`state: Rc<State>`) and its handler identity in the registry (standing
for its `Dispatch`). -/
structure App where
  state : Yewdux.Snapshot State
  handlerId : Nat
deriving DecidableEq, Repr

/-- `App::update` from `examples/multi_component/src/main.rs`:
`Msg::State(state)` stores the received snapshot in `self.state`;
`Msg::Increment` calls `self.dispatch.reduce(|s| s.count += 1)`, which
forwards to the registry's `mutate`; each resulting notification is
enqueued as a `Msg::State` into the addressed component's update loop
(here we collect the messages addressed to this component).  Returns
the component, the registry state and the newly enqueued messages. -/
def appUpdate (app : App) (ctx : Yewdux.Context State) (msg : Msg) :
    App × Yewdux.Context State × List Msg :=
  match msg with
  | Msg.state s => ({ app with state := s }, ctx, [])
  | Msg.increment =>
      let p := Yewdux.mutate basicStore incr ctx
      let inbox := p.2.filterMap (fun e =>
        match e with
        | Yewdux.Event.notify id v =>
            if id = app.handlerId then
              some (Msg.state ⟨p.1.version, v⟩)
            else
              none
        | Yewdux.Event.hook _ => none)
      (app, p.1, inbox)

end MultiComponent

namespace Yewdux

theorem getOrInit_some {α : Type} (S : StoreDef α) (ctx : Context α)
    (s : Snapshot α) (h : ctx.value = some s) : getOrInit S ctx = (s, ctx) := by
  simp [getOrInit, h]

theorem get_some {α : Type} (S : StoreDef α) (ctx : Context α)
    (s : Snapshot α) (h : ctx.value = some s) : get S ctx = s.val := by
  simp [get, getOrInit_some S ctx s h]

theorem mutate_changed {α : Type} (S : StoreDef α) (f : α → α)
    (ctx : Context α) (s : Snapshot α) (h : ctx.value = some s)
    (hc : shouldNotify S s.val (f s.val) = true) :
    mutate S f ctx =
      ({ ctx with value := some ⟨ctx.version + 1, f s.val⟩,
                  version := ctx.version + 1 },
       (if S.hasHook then [Event.hook (f s.val)] else []) ++
         ctx.subscribers.map (fun id => Event.notify id (f s.val))) := by
  simp [mutate, getOrInit_some S ctx s h, hc]

theorem mutate_unchanged {α : Type} (S : StoreDef α) (f : α → α)
    (ctx : Context α) (s : Snapshot α) (h : ctx.value = some s)
    (hc : shouldNotify S s.val (f s.val) = false) :
    mutate S f ctx = (ctx, []) := by
  simp [mutate, getOrInit_some S ctx s h, hc]

theorem step_preserves {α : Type} (S : StoreDef α) (ctx : Context α)
    (op : Op α) (s : Snapshot α) (h : ctx.value = some s) :
    (step S ctx op).1.constructions = ctx.constructions ∧
    ∃ s', (step S ctx op).1.value = some s' := by
  cases op with
  | subscribe id =>
      constructor
      · simp [step, subscribe, getOrInit_some S ctx s h]
      · refine ⟨s, ?_⟩
        simp only [step, subscribe, getOrInit_some S ctx s h]
        exact h
  | unsubscribe id =>
      exact ⟨rfl, s, h⟩
  | mutate f =>
      by_cases hc : shouldNotify S s.val (f s.val) = true
      · rw [step, mutate_changed S f ctx s h hc]
        exact ⟨rfl, _, rfl⟩
      · rw [step, mutate_unchanged S f ctx s h (by simpa using hc)]
        exact ⟨rfl, s, h⟩

theorem run_preserves {α : Type} (S : StoreDef α) (ops : List (Op α)) :
    ∀ ctx : Context α, ∀ s : Snapshot α, ctx.value = some s →
    (run S ops ctx).1.constructions = ctx.constructions := by
  induction ops with
  | nil => intro ctx s _; rfl
  | cons op ops ih =>
      intro ctx s h
      obtain ⟨hcons, s', hval⟩ := step_preserves S ctx op s h
      show (run S ops (step S ctx op).1).1.constructions = ctx.constructions
      rw [ih _ s' hval, hcons]

/-- C6: for every store type with default value `d`, `get_or_init`
called before any mutation returns `d`; construction is idempotent —
the first access constructs exactly once and any further sequence of
registry operations constructs nothing more. -/
theorem getOrInit_default_and_once {α : Type} (S : StoreDef α)
    (ctx : Context α) (h : ctx.value = none) :
    (getOrInit S ctx).1.val = S.init ∧
    (getOrInit S ctx).2.constructions = ctx.constructions + 1 ∧
    ∀ ops : List (Op α),
      (run S ops (getOrInit S ctx).2).1.constructions = ctx.constructions + 1 := by
  refine ⟨by simp [getOrInit, h], by simp [getOrInit, h], fun ops => ?_⟩
  have hval : (getOrInit S ctx).2.value = some ⟨ctx.version, S.init⟩ := by
    simp [getOrInit, h]
  rw [run_preserves S ops _ _ hval]
  simp [getOrInit, h]

/-- C6 witness at a concrete store. -/
theorem getOrInit_default_and_once_witness :
    (getOrInit ⟨(7 : Nat), none, false⟩ (Context.empty Nat)).1.val = 7 ∧
    (getOrInit ⟨(7 : Nat), none, false⟩ (Context.empty Nat)).2.constructions = 1 ∧
    (run ⟨(7 : Nat), none, false⟩ [Op.subscribe 1, Op.mutate (fun v => v + 1)]
      (getOrInit ⟨(7 : Nat), none, false⟩ (Context.empty Nat)).2).1.constructions = 1 := by
  obtain ⟨h1, h2, h3⟩ :=
    getOrInit_default_and_once ⟨(7 : Nat), none, false⟩ (Context.empty Nat) rfl
  exact ⟨h1, h2, h3 _⟩

theorem get_mutate_none {α : Type} (S : StoreDef α) (hS : S.changed = none)
    (f : α → α) (ctx : Context α) :
    get S (mutate S f ctx).1 = f (get S ctx) := by
  have hval : (getOrInit S ctx).2.value = some (getOrInit S ctx).1 := by
    cases hv : ctx.value with
    | none => simp [getOrInit, hv]
    | some s => simp [getOrInit, hv]
  have hc : shouldNotify S (getOrInit S ctx).1.val (f (getOrInit S ctx).1.val) = true := by
    simp [shouldNotify, hS]
  have hm : mutate S f ctx = mutate S f (getOrInit S ctx).2 := by
    cases hv : ctx.value with
    | none => simp [mutate, getOrInit, hv]
    | some s => simp [mutate, getOrInit, hv]
  rw [hm, mutate_changed S f _ _ hval hc]
  simp [get, getOrInit]

/-- C2: with a pure reducer store (no change-detection predicate, as in
the `Basic` variant), the value observed by `get()` immediately after a
sequence of `reduce` calls equals the left fold of the reducers in call
order over the initial value. -/
theorem reduce_fold {α : Type} (S : StoreDef α) (hS : S.changed = none)
    (fs : List (α → α)) :
    get S (run S (fs.map Op.mutate) (Context.empty α)).1 =
      fs.foldl (fun v f => f v) S.init := by
  suffices hgen : ∀ ctx : Context α,
      get S (run S (fs.map Op.mutate) ctx).1 =
        fs.foldl (fun v f => f v) (get S ctx) by
    rw [hgen]
    simp [get, getOrInit, Context.empty]
  induction fs with
  | nil => intro ctx; rfl
  | cons f fs ih =>
      intro ctx
      show get S (run S (fs.map Op.mutate) (mutate S f ctx).1).1 = _
      rw [ih, get_mutate_none S hS f ctx]
      rfl

/-- C2 witness: three reducers folded over the initial value. -/
theorem reduce_fold_witness :
    get ⟨(2 : Nat), none, false⟩
      (run ⟨(2 : Nat), none, false⟩
        ([fun v => v + 1, fun v => v * 10, fun v => v + 4].map Op.mutate)
        (Context.empty Nat)).1 = 34 := by
  have h := reduce_fold ⟨(2 : Nat), none, false⟩ rfl
      [fun v => v + 1, fun v => v * 10, fun v => v + 4]
  simpa using h

/-- C3: subscribing a new listener synchronously delivers exactly one
notification to it carrying the current value, and in a run where a
mutation follows, that delivery precedes every notification the
mutation causes. -/
theorem subscribe_immediate {α : Type} (S : StoreDef α) (id : Nat)
    (ctx : Context α) (f : α → α) :
    (subscribe S id ctx).2 = [Event.notify id (get S ctx)] ∧
    (run S [Op.subscribe id, Op.mutate f] ctx).2 =
      Event.notify id (get S ctx) :: (mutate S f (subscribe S id ctx).1).2 := by
  constructor
  · cases hv : ctx.value with
    | none => simp [subscribe, get, getOrInit, hv]
    | some s => simp [subscribe, get, getOrInit, hv]
  · show ((subscribe S id ctx).2 ++ ((mutate S f (subscribe S id ctx).1).2 ++ [])) = _
    cases hv : ctx.value with
    | none => simp [subscribe, get, getOrInit, hv]
    | some s => simp [subscribe, get, getOrInit, hv]

theorem countP_notify_map {α : Type} (id : Nat) (v : α) (l : List Nat) :
    (l.map (fun j => Event.notify j v)).countP (isNotifyTo id) = l.count id := by
  rw [List.countP_map]
  have hfun : (isNotifyTo id ∘ fun j => Event.notify (α := α) j v) =
      (fun j => j == id) := by
    funext j
    by_cases h : j = id <;> simp [isNotifyTo, h]
  rw [hfun]
  rfl

/-- C1: if the change-detection predicate reports "unchanged", a
`mutate` notifies no subscriber and runs no hook (the event log is
empty); if it reports "changed" (or is absent, as for `Basic`), every
subscriber registered at the time of the `mutate` receives exactly one
notification, carrying the new value, and the post-mutation hook runs
exactly once when the store has one. -/
theorem mutate_notification {α : Type} (S : StoreDef α) (f : α → α)
    (ctx : Context α) (s : Snapshot α) (hv : ctx.value = some s)
    (hnd : ctx.subscribers.Nodup) :
    (shouldNotify S s.val (f s.val) = false → (mutate S f ctx).2 = []) ∧
    (shouldNotify S s.val (f s.val) = true →
      (∀ id ∈ ctx.subscribers,
        (mutate S f ctx).2.countP (isNotifyTo id) = 1 ∧
        Event.notify id (f s.val) ∈ (mutate S f ctx).2) ∧
      (mutate S f ctx).2.countP isHook = if S.hasHook then 1 else 0) := by
  constructor
  · intro hc
    rw [mutate_unchanged S f ctx s hv hc]
  · intro hc
    rw [mutate_changed S f ctx s hv hc]
    refine ⟨fun id hid => ⟨?_, ?_⟩, ?_⟩
    · rw [List.countP_append, countP_notify_map,
        List.count_eq_one_of_mem hnd hid]
      cases hh : S.hasHook <;> simp [isNotifyTo]
    · exact List.mem_append_right _ (List.mem_map_of_mem _ hid)
    · rw [List.countP_append, List.countP_map]
      have hz : ctx.subscribers.countP
          (isHook ∘ fun j => Event.notify (α := α) j (f s.val)) = 0 := by
        simp [Function.comp, isHook]
      rw [hz]
      cases hh : S.hasHook <;> simp [isHook]

/-- C1 witness: a store whose predicate compares values, an unchanged
mutation (empty log) and a changed one over two subscribers. -/
theorem mutate_notification_witness :
    (mutate ⟨0, some (fun a b => a ≠ b), true⟩ (fun _ => 5)
      ⟨some ⟨0, 5⟩, [1, 2], 0, 1⟩).2 = [] ∧
    (mutate ⟨0, some (fun a b => a ≠ b), true⟩ (fun v => v + 1)
      ⟨some ⟨0, 5⟩, [1, 2], 0, 1⟩).2.countP (isNotifyTo 1) = 1 ∧
    Event.notify 1 6 ∈ (mutate ⟨0, some (fun a b => a ≠ b), true⟩
      (fun v => v + 1) ⟨some ⟨0, 5⟩, [1, 2], 0, 1⟩).2 ∧
    (mutate ⟨0, some (fun a b => a ≠ b), true⟩ (fun v => v + 1)
      ⟨some ⟨0, 5⟩, [1, 2], 0, 1⟩).2.countP isHook = 1 := by
  have h0 := (mutate_notification ⟨0, some (fun a b => a ≠ b), true⟩
    (fun _ => 5) ⟨some ⟨0, 5⟩, [1, 2], 0, 1⟩ ⟨0, 5⟩ rfl (by decide)).1 (by decide)
  have h := (mutate_notification ⟨0, some (fun a b => a ≠ b), true⟩
    (fun v => v + 1) ⟨some ⟨0, 5⟩, [1, 2], 0, 1⟩ ⟨0, 5⟩ rfl (by decide)).2
    (by decide)
  have h1 := h.1 1 (by decide)
  exact ⟨h0, h1.1, h1.2, h.2⟩

theorem notifyLoop_events {α : Type} (v : α) (u : Nat → Bool) :
    ∀ snap subs : List Nat,
      (notifyLoop v u snap subs).1 = snap.map (fun id => Event.notify id v) := by
  intro snap
  induction snap with
  | nil => intro subs; rfl
  | cons id rest ih => intro subs; simp [notifyLoop, ih]

theorem notifyLoop_cons {α : Type} (v : α) (u : Nat → Bool) (j : Nat)
    (rest subs : List Nat) :
    (notifyLoop v u (j :: rest) subs).2 =
      (notifyLoop v u rest
        (if u j then subs.filter (fun x => x ≠ j) else subs)).2 := rfl

theorem notifyLoop_not_mem {α : Type} (v : α) (u : Nat → Bool) (id : Nat) :
    ∀ snap subs : List Nat, id ∉ subs →
      id ∉ (notifyLoop v u snap subs).2 := by
  intro snap
  induction snap with
  | nil => intro subs h; exact h
  | cons j rest ih =>
      intro subs h
      rw [notifyLoop_cons]
      apply ih
      split
      · intro hmem
        rw [List.mem_filter] at hmem
        exact h hmem.1
      · exact h

theorem notifyLoop_self_unsub {α : Type} (v : α) (u : Nat → Bool) (id : Nat)
    (hu : u id = true) :
    ∀ snap subs : List Nat, id ∈ snap →
      id ∉ (notifyLoop v u snap subs).2 := by
  intro snap
  induction snap with
  | nil => intro subs h; cases h
  | cons j rest ih =>
      intro subs hmem
      rw [notifyLoop_cons]
      by_cases hj : j = id
      · subst hj
        apply notifyLoop_not_mem
        rw [if_pos hu]
        simp [List.mem_filter]
      · have hrest : id ∈ rest := by
          cases List.mem_cons.mp hmem with
          | inl h => exact absurd h.symm hj
          | inr h => exact h
        exact ih _ hrest

theorem mutateU_changed {α : Type} (S : StoreDef α) (f : α → α)
    (u : Nat → Bool) (ctx : Context α) (s : Snapshot α)
    (hv : ctx.value = some s) (hc : shouldNotify S s.val (f s.val) = true) :
    mutateU S f u ctx =
      ({ ctx with value := some ⟨ctx.version + 1, f s.val⟩,
                  version := ctx.version + 1,
                  subscribers :=
                    (notifyLoop (f s.val) u ctx.subscribers ctx.subscribers).2 },
       (if S.hasHook then [Event.hook (f s.val)] else []) ++
         (notifyLoop (f s.val) u ctx.subscribers ctx.subscribers).1) := by
  simp [mutateU, getOrInit_some S ctx s hv, hc]

theorem mutate_subscribers {α : Type} (S : StoreDef α) (f : α → α)
    (ctx : Context α) : (mutate S f ctx).1.subscribers = ctx.subscribers := by
  cases hv : ctx.value with
  | none => simp [mutate, getOrInit, hv]; split <;> rfl
  | some s => simp [mutate, getOrInit, hv]; split <;> rfl

theorem mutate_events_not_mem {α : Type} (S : StoreDef α) (f : α → α)
    (ctx : Context α) (id : Nat) (h : id ∉ ctx.subscribers) :
    (mutate S f ctx).2.countP (isNotifyTo id) = 0 := by
  have hmap : (ctx.subscribers.map
      (fun j => Event.notify (α := α) j ((f (getOrInit S ctx).1.val)))).countP
        (isNotifyTo id) = 0 := by
    rw [countP_notify_map]
    exact List.count_eq_zero.mpr h
  cases hv : ctx.value with
  | none =>
      simp only [mutate, getOrInit, hv] at *
      split
      · rw [List.countP_append]
        rw [hmap]
        cases S.hasHook <;> simp [isNotifyTo]
      · rfl
  | some s =>
      simp only [mutate, getOrInit, hv] at *
      split
      · rw [List.countP_append]
        rw [hmap]
        cases S.hasHook <;> simp [isNotifyTo]
      · rfl

theorem run_no_notify {α : Type} (S : StoreDef α) (id : Nat)
    (ops : List (Op α)) (hops : ∀ op ∈ ops, op ≠ Op.subscribe id) :
    ∀ ctx : Context α, id ∉ ctx.subscribers →
      id ∉ (run S ops ctx).1.subscribers ∧
      (run S ops ctx).2.countP (isNotifyTo id) = 0 := by
  induction ops with
  | nil => intro ctx h; exact ⟨h, rfl⟩
  | cons op ops ih =>
      intro ctx h
      have hop : op ≠ Op.subscribe id := hops op (List.mem_cons_self op ops)
      have hrest : ∀ o ∈ ops, o ≠ Op.subscribe id :=
        fun o ho => hops o (List.mem_cons_of_mem op ho)
      have hstep : id ∉ (step S ctx op).1.subscribers ∧
          (step S ctx op).2.countP (isNotifyTo id) = 0 := by
        cases op with
        | subscribe j =>
            have hj : j ≠ id := fun hji => hop (by rw [hji])
            constructor
            · cases hv : ctx.value with
              | none =>
                  simp only [step, subscribe, getOrInit, hv]
                  split
                  · exact h
                  · simp only [List.mem_append, List.mem_singleton]
                    rintro (hin | hin)
                    · exact h hin
                    · exact hj hin.symm
              | some s =>
                  simp only [step, subscribe, getOrInit, hv]
                  split
                  · exact h
                  · simp only [List.mem_append, List.mem_singleton]
                    rintro (hin | hin)
                    · exact h hin
                    · exact hj hin.symm
            · cases hv : ctx.value with
              | none => simp [step, subscribe, getOrInit, hv, isNotifyTo, hj]
              | some s => simp [step, subscribe, getOrInit, hv, isNotifyTo, hj]
        | unsubscribe j =>
            constructor
            · simp only [step, unsubscribe, List.mem_filter]
              intro hmem
              exact h hmem.1
            · rfl
        | mutate f =>
            constructor
            · rw [show (step S ctx (Op.mutate f)).1 = (mutate S f ctx).1 from rfl,
                mutate_subscribers]
              exact h
            · exact mutate_events_not_mem S f ctx id h
      have hih := ih hrest (step S ctx op).1 hstep.1
      refine ⟨hih.1, ?_⟩
      show ((step S ctx op).2 ++ (run S ops (step S ctx op).1).2).countP
        (isNotifyTo id) = 0
      rw [List.countP_append, hstep.2, hih.2]

/-- C4: a listener that unsubscribes — by `unsubscribe`, or by dropping
its own `Dispatch` from inside its own notification callback — receives
zero further notifications from any later registry operation; the
notify step still iterates the full stable snapshot of subscribers
taken at its start, so every subscriber present at the start of the
step is notified and the iteration never breaks. -/
theorem unsubscribe_no_further {α : Type} (S : StoreDef α) (f : α → α)
    (selfUnsub : Nat → Bool) (id : Nat) (ctx : Context α) (s : Snapshot α)
    (hv : ctx.value = some s) (hu : selfUnsub id = true)
    (hc : shouldNotify S s.val (f s.val) = true) :
    (mutateU S f selfUnsub ctx).2 =
      (if S.hasHook then [Event.hook (f s.val)] else []) ++
        ctx.subscribers.map (fun j => Event.notify j (f s.val)) ∧
    (id ∈ ctx.subscribers → id ∉ (mutateU S f selfUnsub ctx).1.subscribers) ∧
    ∀ ops : List (Op α), (∀ op ∈ ops, op ≠ Op.subscribe id) →
      id ∉ (unsubscribe id ctx).subscribers ∧
      (run S ops (unsubscribe id ctx)).2.countP (isNotifyTo id) = 0 ∧
      (id ∈ ctx.subscribers →
        (run S ops (mutateU S f selfUnsub ctx).1).2.countP (isNotifyTo id) = 0) := by
  rw [mutateU_changed S f selfUnsub ctx s hv hc]
  have hnotmem : id ∉ (unsubscribe id ctx).subscribers := by
    simp [unsubscribe, List.mem_filter]
  refine ⟨?_, ?_, ?_⟩
  · rw [notifyLoop_events]
  · intro hmem
    exact notifyLoop_self_unsub (f s.val) selfUnsub id hu _ _ hmem
  · intro ops hops
    refine ⟨hnotmem, (run_no_notify S id ops hops _ hnotmem).2, fun hmem => ?_⟩
    exact (run_no_notify S id ops hops _
      (notifyLoop_self_unsub (f s.val) selfUnsub id hu _ _ hmem)).2

/-- C4 witness: subscriber 1 drops its Dispatch inside its callback;
the notify step still reaches both subscribers, and a later mutate
notifies subscriber 1 zero times. -/
theorem unsubscribe_no_further_witness :
    (mutateU ⟨(0 : Nat), none, false⟩ (fun v => v + 1) (fun j => j == 1)
        ⟨some ⟨0, 0⟩, [1, 2], 0, 1⟩).2 =
      [Event.notify 1 1, Event.notify 2 1] ∧
    (1 : Nat) ∉ (mutateU ⟨(0 : Nat), none, false⟩ (fun v => v + 1)
        (fun j => j == 1) ⟨some ⟨0, 0⟩, [1, 2], 0, 1⟩).1.subscribers ∧
    (run ⟨(0 : Nat), none, false⟩ [Op.mutate (fun v => v + 1)]
        (mutateU ⟨(0 : Nat), none, false⟩ (fun v => v + 1) (fun j => j == 1)
          ⟨some ⟨0, 0⟩, [1, 2], 0, 1⟩).1).2.countP (isNotifyTo 1) = 0 := by
  have h := unsubscribe_no_further ⟨(0 : Nat), none, false⟩ (fun v => v + 1)
    (fun j => j == 1) 1 ⟨some ⟨0, 0⟩, [1, 2], 0, 1⟩ ⟨0, 0⟩ rfl (by decide) rfl
  have hops : ∀ op ∈ [Op.mutate (α := Nat) (fun v => v + 1)],
      op ≠ Op.subscribe 1 := by
    intro op hop
    rw [List.mem_singleton.mp hop]
    intro heq
    cases heq
  refine ⟨by simpa using h.1, h.2.1 (by decide), ?_⟩
  exact (h.2.2 [Op.mutate (fun v => v + 1)] hops).2.2 (by decide)

/-- C5: there is a single canonical current value per store type —
every reader between two mutations receives the identical by-reference
snapshot; a mutation through any Dispatch installs one new canonical
snapshot that all Dispatches then read identically; and the new
snapshot is a fresh allocation whose reference differs from the old
snapshot's, which therefore keeps its old contents. -/
theorem single_canonical_snapshot {α : Type} (S : StoreDef α) (f : α → α)
    (ctx : Context α) (s0 : Snapshot α) (hv : ctx.value = some s0)
    (hw : s0.ref ≤ ctx.version)
    (hc : shouldNotify S s0.val (f s0.val) = true) :
    getSnap S ctx = s0 ∧
    (mutate S f ctx).1.value = some ⟨ctx.version + 1, f s0.val⟩ ∧
    getSnap S (mutate S f ctx).1 = ⟨ctx.version + 1, f s0.val⟩ ∧
    (⟨ctx.version + 1, f s0.val⟩ : Snapshot α).ref ≠ s0.ref := by
  rw [mutate_changed S f ctx s0 hv hc]
  refine ⟨?_, rfl, ?_, ?_⟩
  · simp [getSnap, getOrInit_some S ctx s0 hv]
  · simp [getSnap, getOrInit]
  · show ctx.version + 1 ≠ s0.ref
    omega

/-- C5 witness: a mutation on a concrete two-subscriber registry. -/
theorem single_canonical_snapshot_witness :
    getSnap ⟨(0 : Nat), none, false⟩ ⟨some ⟨2, 5⟩, [1, 2], 2, 1⟩ = ⟨2, 5⟩ ∧
    (mutate ⟨(0 : Nat), none, false⟩ (fun v => v + 1)
      ⟨some ⟨2, 5⟩, [1, 2], 2, 1⟩).1.value = some ⟨3, 6⟩ ∧
    getSnap ⟨(0 : Nat), none, false⟩
      (mutate ⟨(0 : Nat), none, false⟩ (fun v => v + 1)
        ⟨some ⟨2, 5⟩, [1, 2], 2, 1⟩).1 = ⟨3, 6⟩ ∧
    (⟨3, 6⟩ : Snapshot Nat).ref ≠ (⟨2, 5⟩ : Snapshot Nat).ref := by
  exact single_canonical_snapshot ⟨(0 : Nat), none, false⟩ (fun v => v + 1)
    ⟨some ⟨2, 5⟩, [1, 2], 2, 1⟩ ⟨2, 5⟩ rfl (by decide) rfl

/-- C7: persistent store round-trip — constructing a store after
persisting value `v` under the same backend and key yields `v` (for a
codec that round-trips), while an absent or undeserializable key yields
the default value, never a failure. -/
theorem persistent_roundtrip {α : Type} (c : Codec α) (d v : α) (k : String)
    (b : Backend) (hrt : c.de (c.ser v) = some v) :
    persistentConstruct c d k (persistentSave c k b v) = v ∧
    (∀ b' : Backend, b'.load k = none → persistentConstruct c d k b' = d) ∧
    (∀ (b' : Backend) (bytes : List Nat), b'.load k = some bytes →
      c.de bytes = none → persistentConstruct c d k b' = d) := by
  refine ⟨?_, ?_, ?_⟩
  · have hload : (persistentSave c k b v).load k = some (c.ser v) := by
      simp [persistentSave, Backend.put, Backend.load]
    simp [persistentConstruct, hload, hrt]
  · intro b' h
    simp [persistentConstruct, h]
  · intro b' bytes h hde
    simp [persistentConstruct, h, hde]

/-- C7 witness: a concrete unary codec over `Nat`, a stored value, an
empty backend and a corrupt entry. -/
theorem persistent_roundtrip_witness :
    persistentConstruct
      ⟨fun n => [n], fun l => match l with | [n] => some n | _ => none⟩
      0 "k" (persistentSave
        ⟨fun n => [n], fun l => match l with | [n] => some n | _ => none⟩
        "k" ⟨[]⟩ 42) = 42 ∧
    persistentConstruct
      ⟨fun n => [n], fun l => match l with | [n] => some n | _ => none⟩
      0 "k" ⟨[]⟩ = 0 ∧
    persistentConstruct
      ⟨fun n => [n], fun l => match l with | [n] => some n | _ => none⟩
      0 "k" ⟨[("k", [1, 2])]⟩ = 0 := by
  have h := persistent_roundtrip
    (⟨fun n => [n], fun l => match l with | [n] => some n | _ => none⟩ :
      Codec Nat) 0 42 "k" ⟨[]⟩ rfl
  exact ⟨h.1, h.2.1 ⟨[]⟩ rfl, h.2.2 ⟨[("k", [1, 2])]⟩ [1, 2] rfl rfl⟩

/-- C8: reentrant mutation is breadth-first — when notification
callbacks enqueue nested mutations, the outer mutation's complete
fan-out (its hook and one notification per subscriber, with the outer
new value) is delivered before any event of the nested mutations,
which are then processed in subscriber order. -/
theorem reentrant_breadth_first {α : Type} (S : StoreDef α)
    (re : Nat → α → List (α → α)) (f : α → α) (ctx : Context α)
    (s0 : Snapshot α) (hv : ctx.value = some s0)
    (hc : shouldNotify S s0.val (f s0.val) = true) (fuel : Nat) :
    (runQueue S re (fuel + 1) [f] ctx).2 =
      ((if S.hasHook then [Event.hook (f s0.val)] else []) ++
        ctx.subscribers.map (fun id => Event.notify id (f s0.val))) ++
      (runQueue S re fuel
        (ctx.subscribers.flatMap (fun id => re id (f s0.val)))
        (mutate S f ctx).1).2 := by
  show ((mutate S f ctx).2 ++
      (runQueue S re fuel
        ([] ++ (mutate S f ctx).2.flatMap (fun e =>
          match e with
          | Event.notify id v => re id v
          | Event.hook _ => [])) (mutate S f ctx).1).2) = _
  rw [mutate_changed S f ctx s0 hv hc]
  simp only [List.nil_append, List.flatMap_append, List.flatMap_cons]
  have hhook : ((if S.hasHook = true then [Event.hook (f s0.val)] else [] :
      List (Event α)).flatMap (fun e => match e with
        | Event.notify id v => re id v
        | Event.hook _ => [])) = [] := by
    cases S.hasHook <;> rfl
  congr 2
  rw [hhook, List.nil_append, List.flatMap_map]

/-- C8 witness: subscriber 1's callback enqueues a nested increment;
the outer fan-out to both subscribers precedes the nested one. -/
theorem reentrant_breadth_first_witness :
    (runQueue ⟨(0 : Nat), none, false⟩
        (fun id _ => if id = 1 then [fun v => v + 10] else [])
        2 [fun v => v + 1] ⟨some ⟨0, 0⟩, [1, 2], 0, 1⟩).2 =
      ([] ++ [Event.notify 1 1, Event.notify 2 1]) ++
        [Event.notify 1 11, Event.notify 2 11] := by
  have h := reentrant_breadth_first ⟨(0 : Nat), none, false⟩
    (fun id _ => if id = 1 then [fun v => v + 10] else [])
    (fun v => v + 1) ⟨some ⟨0, 0⟩, [1, 2], 0, 1⟩ ⟨0, 0⟩ rfl rfl 1
  rw [h]
  rfl

end Yewdux

namespace MultiComponent

theorem filterMap_if_not_mem {β : Type} (m : β) (a : Nat) :
    ∀ l : List Nat, a ∉ l →
      l.filterMap (fun id => if id = a then some m else none) = [] := by
  intro l
  induction l with
  | nil => intro _; rfl
  | cons j rest ih =>
      intro h
      have hj : j ≠ a := fun hja => h (by rw [hja]; exact List.mem_cons_self a rest)
      simp only [List.filterMap_cons, if_neg hj]
      exact ih fun hm => h (List.mem_cons_of_mem j hm)

theorem filterMap_if_single {β : Type} (m : β) (a : Nat) :
    ∀ l : List Nat, l.Nodup → a ∈ l →
      l.filterMap (fun id => if id = a then some m else none) = [m] := by
  intro l
  induction l with
  | nil => intro _ h; cases h
  | cons j rest ih =>
      intro hnd hmem
      have hj := List.nodup_cons.mp hnd
      by_cases hja : j = a
      · subst hja
        have hif : (if j = j then some m else none) = some m := if_pos rfl
        rw [List.filterMap_cons, hif]
        show m :: List.filterMap (fun id => if id = j then some m else none)
          rest = [m]
        rw [filterMap_if_not_mem m j rest hj.1]
      · have hrest : a ∈ rest := by
          cases List.mem_cons.mp hmem with
          | inl h => exact absurd h.symm hja
          | inr h => exact h
        simp only [List.filterMap_cons, if_neg hja]
        exact ih hj.2 hrest

/-- C9: calling `reduce` does not synchronously change the caller's
own state: after the component processes `Msg::Increment` (which calls
`dispatch.reduce`), its local `state` field still holds the old
snapshot; exactly one `Msg::State` carrying the new value is enqueued
into its update loop, and the component observes the new value only
when that message is processed. -/
theorem reduce_delayed_local_state (app : App) (ctx : Yewdux.Context State)
    (s0 : Yewdux.Snapshot State) (hv : ctx.value = some s0)
    (hnd : ctx.subscribers.Nodup) (hm : app.handlerId ∈ ctx.subscribers) :
    (appUpdate app ctx Msg.increment).1.state = app.state ∧
    (appUpdate app ctx Msg.increment).2.2 =
      [Msg.state ⟨ctx.version + 1, incr s0.val⟩] ∧
    (appUpdate (appUpdate app ctx Msg.increment).1
        (appUpdate app ctx Msg.increment).2.1
        (Msg.state ⟨ctx.version + 1, incr s0.val⟩)).1.state =
      ⟨ctx.version + 1, incr s0.val⟩ := by
  refine ⟨rfl, ?_, rfl⟩
  show ((Yewdux.mutate basicStore incr ctx).2.filterMap _) = _
  rw [Yewdux.mutate_changed basicStore incr ctx s0 hv rfl]
  show ((ctx.subscribers.map fun id =>
      Yewdux.Event.notify id (incr s0.val)).filterMap fun e =>
        match e with
        | Yewdux.Event.notify id v =>
            if id = app.handlerId then some (Msg.state ⟨ctx.version + 1, v⟩)
            else none
        | Yewdux.Event.hook _ => none) =
    [Msg.state ⟨ctx.version + 1, incr s0.val⟩]
  rw [List.filterMap_map]
  exact filterMap_if_single (Msg.state ⟨ctx.version + 1, incr s0.val⟩)
    app.handlerId ctx.subscribers hnd hm

/-- C9 witness: a component with handler id 1 on a fresh registry with
count 0. -/
theorem reduce_delayed_local_state_witness :
    (appUpdate ⟨⟨0, ⟨0⟩⟩, 1⟩ ⟨some ⟨0, ⟨0⟩⟩, [1], 0, 1⟩ Msg.increment).1.state =
      ⟨0, ⟨0⟩⟩ ∧
    (appUpdate ⟨⟨0, ⟨0⟩⟩, 1⟩ ⟨some ⟨0, ⟨0⟩⟩, [1], 0, 1⟩ Msg.increment).2.2 =
      [Msg.state ⟨1, ⟨1⟩⟩] ∧
    (appUpdate (appUpdate ⟨⟨0, ⟨0⟩⟩, 1⟩ ⟨some ⟨0, ⟨0⟩⟩, [1], 0, 1⟩
        Msg.increment).1
      (appUpdate ⟨⟨0, ⟨0⟩⟩, 1⟩ ⟨some ⟨0, ⟨0⟩⟩, [1], 0, 1⟩ Msg.increment).2.1
      (Msg.state ⟨1, ⟨1⟩⟩)).1.state = ⟨1, ⟨1⟩⟩ := by
  have h := reduce_delayed_local_state ⟨⟨0, ⟨0⟩⟩, 1⟩ ⟨some ⟨0, ⟨0⟩⟩, [1], 0, 1⟩
    ⟨0, ⟨0⟩⟩ rfl (by decide) (by decide)
  exact ⟨h.1, by simpa [incr] using h.2.1, by simpa [incr] using h.2.2⟩

/-- C10: the shared value is clone-on-write — a `reduce` applies the
in-place mutator to a fresh clone of the current value and publishes
that clone: the published snapshot holds the mutated value under a
reference distinct from every previously handed-out snapshot's
reference, and every notification carries the clone's value, so every
previously handed-out snapshot keeps its old contents. -/
theorem reduce_clone_on_write (mu : State → State)
    (ctx : Yewdux.Context State) (s0 : Yewdux.Snapshot State)
    (hv : ctx.value = some s0) :
    (Yewdux.mutate basicStore mu ctx).1.value =
      some ⟨ctx.version + 1, mu s0.val⟩ ∧
    (∀ s' : Yewdux.Snapshot State, s'.ref ≤ ctx.version →
      ctx.version + 1 ≠ s'.ref) ∧
    (∀ id v, Yewdux.Event.notify id v ∈ (Yewdux.mutate basicStore mu ctx).2 →
      v = mu s0.val) := by
  rw [Yewdux.mutate_changed basicStore mu ctx s0 hv rfl]
  refine ⟨rfl, fun s' h => by omega, ?_⟩
  intro id v hmem
  have hmem' : Yewdux.Event.notify id v ∈
      ctx.subscribers.map (fun j => Yewdux.Event.notify j (mu s0.val)) := hmem
  obtain ⟨j, _, heq⟩ := List.mem_map.mp hmem'
  cases heq
  rfl

/-- C10 witness: an increment on a concrete registry, with the
previously handed-out snapshot reference 0. -/
theorem reduce_clone_on_write_witness :
    (Yewdux.mutate basicStore incr ⟨some ⟨0, ⟨5⟩⟩, [1], 0, 1⟩).1.value =
      some ⟨1, ⟨6⟩⟩ ∧
    (1 : Nat) ≠ (0 : Nat) ∧
    (⟨6⟩ : State) = incr ⟨5⟩ := by
  have h := reduce_clone_on_write incr ⟨some ⟨0, ⟨5⟩⟩, [1], 0, 1⟩ ⟨0, ⟨5⟩⟩ rfl
  refine ⟨by simpa [incr] using h.1, h.2.1 ⟨0, ⟨5⟩⟩ (Nat.le_refl 0), ?_⟩
  exact h.2.2 1 ⟨6⟩ (by simp [Yewdux.mutate, Yewdux.getOrInit,
    Yewdux.shouldNotify, basicStore, incr])

end MultiComponent

